import Mathlib

/-!
# Verification of the k8s-wizard core (wizard state machine, command builder,
# versioned output store)

Shallow embedding of the Go sources of `k8s-wizard` (`internal/app`), covering:

* the `Screen` / `ResourceType` / `Action` enumerations and the pure
  `buildCommand` function (`internal/app/navigation.go`);
* the flag-toggle engine (`toggleFlag` in
  `internal/app/model_favourites_hotkeys.go`);
* the navigation handlers (`navigateToMainMenu`, `navigateBack`, … in
  `internal/app/model_navigation.go` and `internal/app/model.go`);
* the versioned output store (`saveOutput`, `renameSavedOutputGroup`,
  `deleteSavedOutput`, the command→base index functions in
  `internal/app/model.go`), with the `saved_cmd` directory and `index.json`
  modelled as explicit association lists.

Go strings are modelled as Lean `String`; the byte-level operations used by
the source (`strings.TrimSuffix`, `strings.TrimSpace`, slicing, the
`^(.*)_v(\d+)$` regular expression) are re-implemented below on character
lists, which coincides with the Go behaviour on the ASCII data the wizard
manipulates.
-/

namespace KW

/-! ## Go string primitives -/

/-- Whitespace predicate used by Go's `strings.TrimSpace` (ASCII range;
`unicode.IsSpace` additionally accepts some non-ASCII spaces that never occur
in this code base). -/
def isSpaceChar (c : Char) : Bool :=
  c = ' ' || c = '\t' || c = '\n' || c = '\x0b' || c = '\x0c' || c = '\r'

/-- Go `strings.TrimSpace`. -/
def trimSpace (s : String) : String :=
  ⟨((s.data.dropWhile isSpaceChar).reverse.dropWhile isSpaceChar).reverse⟩

/-- Go `strings.TrimSuffix s suffix`: removes one trailing occurrence of
`suffix`, if present. -/
def trimSuffix (s suffix : String) : String :=
  if suffix.data.isSuffixOf s.data then
    ⟨s.data.take (s.data.length - suffix.data.length)⟩
  else s

/-- Go `strings.HasSuffix`. -/
def hasSuffix (s suffix : String) : Bool :=
  suffix.data.isSuffixOf s.data

/-- Go `strings.HasPrefix`. -/
def hasPrefix (s pre : String) : Bool :=
  pre.data.isPrefixOf s.data

/-- Decimal digits to a natural number (`strconv.Atoi` on a digit string;
the overflow error branch of `Atoi` is unreachable for the file counts this
program manipulates). -/
def digitsToNat (ds : List Char) : Nat :=
  ds.foldl (fun n c => n * 10 + (c.toNat - '0'.toNat)) 0

/-- The submatch split of Go's greedy regular expression `^(.*)_v(\d+)$`:
`goVersionSplit s = some (base, digits)` iff `s = base ++ "_v" ++ digits`
with `digits` a non-empty digit string and `base` as long as possible
(greedy `(.*)`). Implemented on character lists, preferring the rightmost
admissible split. -/
def goVersionSplitAux : List Char → Option (List Char × List Char)
  | [] => none
  | c :: rest =>
    match goVersionSplitAux rest with
    | some (b, ds) => some (c :: b, ds)
    | none =>
      match c, rest with
      | '_', 'v' :: ds =>
        if ds ≠ [] && ds.all Char.isDigit then some ([], ds) else none
      | _, _ => none

/-- `versionRe.FindStringSubmatch` for `^(.*)_v(\d+)$`, returning
`(matches[1], matches[2])` as strings. -/
def goVersionSplit (s : String) : Option (String × String) :=
  match goVersionSplitAux s.data with
  | some (b, ds) => some (⟨b⟩, ⟨ds⟩)
  | none => none

/-- `strconv.Atoi` applied to `matches[2]` of the version regexp (always a
digit string, so the error branch is unreachable). -/
def atoiDigits (s : String) : Nat :=
  digitsToNat s.data

/-! ## Enumerations (`internal/app/navigation.go`) -/

/-- Screen represents different screens in the wizard. -/
inductive Screen where
  | MainMenuScreen
  | ResourceSelectionScreen
  | ActionSelectionScreen
  | ResourceNameSelectionScreen
  | FlagsSelectionScreen
  | NamespaceInputScreen
  | CommandPreviewScreen
  | CommandOutputScreen
  | CommandHelpScreen
  | HotkeysListScreen
  | HotkeyBindScreen
  | ClusterConnectivityScreen
  | CommandHistoryScreen
  | FavouritesListScreen
  | SaveFavouriteScreen
  | RenameFavouriteScreen
  | SaveOutputNameScreen
  | SavedOutputsListScreen
  | SavedOutputVersionsScreen
  | SavedOutputViewScreen
  | RenameSavedOutputScreen
  | ContextsNamespacesMenuScreen
  | ContextsListScreen
  | NamespacesListScreen
  | CustomCommandScreen
  | SecretFieldSelectionScreen
  | ClusterInfoScreen
  | DeleteConfirmationScreen
  | PortInputScreen
  deriving DecidableEq, Repr

/-- ResourceType represents the type of Kubernetes resource.
`ResourcePods` is the Go zero value. -/
inductive ResourceType where
  | ResourcePods
  | ResourceDeployments
  | ResourceServices
  | ResourceNodes
  | ResourceConfigMaps
  | ResourceSecrets
  | ResourceIngress
  deriving DecidableEq, Repr

/-- Action represents an action to perform on a resource.
`ActionGet` is the Go zero value. -/
inductive Action where
  | ActionGet
  | ActionDescribe
  | ActionLogs
  | ActionExtractField
  | ActionEdit
  | ActionDelete
  | ActionExec
  | ActionPortForward
  | ActionTop
  deriving DecidableEq, Repr

open Screen ResourceType Action

/-- `ResourceType.String()`. -/
def resourceTypeString : ResourceType → String
  | ResourcePods => "Pods"
  | ResourceDeployments => "Deployments"
  | ResourceServices => "Services"
  | ResourceNodes => "Nodes"
  | ResourceConfigMaps => "ConfigMaps"
  | ResourceSecrets => "Secrets"
  | ResourceIngress => "Ingress"

/-- `getResourceShortName` (`internal/app/navigation.go`). -/
def getResourceShortName : ResourceType → String
  | ResourcePods => "pod"
  | ResourceDeployments => "deployment"
  | ResourceServices => "service"
  | ResourceNodes => "node"
  | ResourceConfigMaps => "configmap"
  | ResourceSecrets => "secret"
  | ResourceIngress => "ingress"

/-- `buildCommand` (`internal/app/navigation.go`): constructs the kubectl
command string based on selections. -/
def buildCommand (resource : ResourceType) (action : Action)
    (resourceName : String) (flags : List String) : String :=
  let cmd := "kubectl "
  let cmd :=
    match action with
    | ActionGet =>
      match resource with
      | ResourcePods => cmd ++ "get pods"
      | ResourceDeployments => cmd ++ "get deployments"
      | ResourceServices => cmd ++ "get services"
      | ResourceNodes => cmd ++ "get nodes"
      | ResourceConfigMaps => cmd ++ "get configmaps"
      | ResourceSecrets => cmd ++ "get secrets"
      | ResourceIngress => cmd ++ "get ingress"
    | ActionDescribe =>
      match resource with
      | ResourcePods => cmd ++ "describe pod " ++ resourceName
      | ResourceDeployments => cmd ++ "describe deployment " ++ resourceName
      | ResourceServices => cmd ++ "describe service " ++ resourceName
      | ResourceNodes => cmd ++ "describe node " ++ resourceName
      | ResourceConfigMaps => cmd ++ "describe configmap " ++ resourceName
      | ResourceSecrets => cmd ++ "describe secret " ++ resourceName
      | ResourceIngress => cmd ++ "describe ingress " ++ resourceName
    | ActionLogs =>
      match resource with
      | ResourcePods => cmd ++ "logs " ++ resourceName
      | ResourceDeployments => cmd ++ "logs deployment/" ++ resourceName
      | _ => cmd ++ "logs " ++ resourceName
    | ActionExtractField =>
      if resource = ResourceSecrets then
        cmd ++ "get secret " ++ resourceName ++
          " -o go-template='\x7b\x7brange $k, $v := .data\x7d\x7d\x7b\x7b$k\x7d\x7d: \x7b\x7b$v | base64decode\x7d\x7d\x7b\x7b\"\\n\"\x7d\x7d\x7b\x7bend\x7d\x7d'"
      else cmd
    | ActionEdit => cmd ++ "edit " ++ getResourceShortName resource ++ " " ++ resourceName
    | ActionDelete => cmd ++ "delete " ++ getResourceShortName resource ++ " " ++ resourceName
    | ActionExec =>
      if resource = ResourcePods then
        cmd ++ "exec -it " ++ resourceName ++ " -- /bin/sh"
      else if resource = ResourceDeployments then
        cmd ++ "exec -it deployment/" ++ resourceName ++ " -- /bin/sh"
      else cmd
    | ActionPortForward =>
      if resource = ResourcePods then
        cmd ++ "port-forward pod/" ++ resourceName
      else if resource = ResourceServices then
        cmd ++ "port-forward svc/" ++ resourceName
      else if resource = ResourceDeployments then
        cmd ++ "port-forward deployment/" ++ resourceName
      else cmd
    | ActionTop =>
      if resource = ResourcePods then cmd ++ "top pod"
      else if resource = ResourceNodes then cmd ++ "top node"
      else cmd ++ "top " ++ getResourceShortName resource
  flags.foldl (fun c flag => if flag ≠ "" then c ++ " " ++ flag else c) cmd

/-! ## Versioned Output Store (`internal/app/model.go`)

The `saved_cmd` directory is modelled as a list of files (full filename
including the `.txt` extension, plus content); `index.json` as an
association list from command text to base name (a Go `map[string]string`;
map iteration is only used for order-independent bulk updates below). -/

/-- One file of the `saved_cmd` directory. -/
structure SavedFile where
  name : String
  content : String
  deriving DecidableEq, Repr

/-- The `saved_cmd` directory. -/
abbrev Dir := List SavedFile

/-- The `index.json` map from command text to archival base name. -/
abbrev Index := List (String × String)

/-- Go map read `index[command]`. -/
def indexLookup (index : Index) (command : String) : Option String :=
  (index.find? (fun e => e.1 = command)).map (fun e => e.2)

/-- Go map write `index[command] = base`: replaces the value of an existing
key, otherwise adds the binding. -/
def indexSet (index : Index) (command base : String) : Index :=
  if index.any (fun e => e.1 = command) then
    index.map (fun e => if e.1 = command then (e.1, base) else e)
  else index ++ [(command, base)]

/-- `os.WriteFile` inside `saved_cmd`: creates the file or truncates an
existing one. -/
def writeFile (dir : Dir) (name content : String) : Dir :=
  if dir.any (fun f => f.name = name) then
    dir.map (fun f => if f.name = name then ⟨name, content⟩ else f)
  else dir ++ [⟨name, content⟩]

/-- `setSavedOutputBaseNameForCommand` (`internal/app/model.go`): record in
the index that `command` was last saved under `baseName`. -/
def setSavedOutputBaseNameForCommand (index : Index) (command baseName : String) :
    Index :=
  let command := trimSpace command
  if command = "" then index
  else
    let baseName := trimSpace (trimSuffix baseName ".txt")
    if baseName = "" then index
    else indexSet index command baseName

/-- `removeSavedOutputsIndexForBase` (`internal/app/model.go`): delete every
index entry whose value is `baseName`. -/
def removeSavedOutputsIndexForBase (index : Index) (baseName : String) : Index :=
  let baseName := trimSpace (trimSuffix baseName ".txt")
  if baseName = "" then index
  else index.filter (fun e => ¬ (e.2 = baseName))

/-- `updateSavedOutputsIndexOnRename` (`internal/app/model.go`): repoint
every index entry valued `oldName` to `newName`, first stripping a version
suffix from `newName` (so the index keeps tracking a derived base). -/
def updateSavedOutputsIndexOnRename (index : Index) (oldName newName : String) :
    Index :=
  let oldName := trimSpace (trimSuffix oldName ".txt")
  let newName := trimSpace (trimSuffix newName ".txt")
  if oldName = "" ∨ newName = "" then index
  else
    let newName :=
      match goVersionSplit newName with
      | some (b, _) => if b ≠ "" then b else newName
      | none => newName
    index.map (fun e => if e.2 = oldName then (e.1, newName) else e)

/-- Per-file test of `savedOutputGroupExists`: a `.txt` file belongs to the
group `baseName` when its name (extension stripped) either equals `baseName`
or matches `base_vN` with `base = baseName` (here `matches[1]` is used even
when empty). -/
def fileInGroup (baseName : String) (f : SavedFile) : Bool :=
  if ¬ hasSuffix f.name ".txt" then false
  else
    let name := trimSuffix f.name ".txt"
    let fileBase :=
      match goVersionSplit name with
      | some (b, _) => b
      | none => name
    fileBase = baseName

/-- `savedOutputGroupExists` (`internal/app/model.go`): does at least one
file of the group `baseName` remain on disk? -/
def savedOutputGroupExists (dir : Dir) (baseName : String) : Bool :=
  let baseName := trimSpace (trimSuffix baseName ".txt")
  if baseName = "" then false
  else dir.any (fileInGroup baseName)

/-- `getSavedOutputBaseNameForCommand` (`internal/app/model.go`): resolve the
archival base for a command. Returns `(name, ok)` plus the (possibly
self-healed) index. -/
def getSavedOutputBaseNameForCommand (dir : Dir) (index : Index)
    (command : String) : (String × Bool) × Index :=
  if trimSpace command = "" then (("", false), index)
  else
    match indexLookup index command with
    | none => (("", false), index)
    | some name0 =>
      let name := trimSpace (trimSuffix name0 ".txt")
      if name = "" then (("", false), index)
      else if savedOutputGroupExists dir name then ((name, true), index)
      else (("", false), removeSavedOutputsIndexForBase index name)

/-- The base-name derivation shared by `saveOutput` and `deleteSavedOutput`:
if the sanitized name itself matches `base_vN` with a non-empty `base`, that
`base` is the true base; otherwise the name is its own base. -/
def saveBaseName (trimmedName : String) : String :=
  match goVersionSplit trimmedName with
  | some (b, _) => if b ≠ "" then b else trimmedName
  | none => trimmedName

/-- One step of the `maxVersion` scan in `saveOutput`: a file named exactly
`baseName.txt` counts as version 1; `baseName_vN.txt` counts as version N. -/
def saveMaxVersionStep (baseName : String) (maxV : Nat) (f : SavedFile) : Nat :=
  if ¬ hasSuffix f.name ".txt" then maxV
  else
    let existing := trimSuffix f.name ".txt"
    if existing = baseName then (if maxV < 1 then 1 else maxV)
    else
      match goVersionSplit existing with
      | some (b, ds) =>
        if ¬ (b = baseName) then maxV
        else
          let v := atoiDigits ds
          if v > maxV then v else maxV
      | none => maxV

/-- The `maxVersion` computed by `saveOutput` for `baseName` over the
directory. -/
def saveMaxVersion (dir : Dir) (baseName : String) : Nat :=
  dir.foldl (saveMaxVersionStep baseName) 0

/-- `saveOutput` (`internal/app/model.go`): sanitize the chosen name, derive
the true base, compute the next version, write the file, and index the
current command under the base. Returns the new directory, new index and the
written filename. -/
def saveOutput (dir : Dir) (index : Index) (name content currentCommand : String) :
    Except String (Dir × Index × String) :=
  let trimmedName := trimSpace (trimSuffix name ".txt")
  if trimmedName = "" then .error "output name cannot be empty"
  else
    let baseName := saveBaseName trimmedName
    let maxVersion := saveMaxVersion dir baseName
    let targetName :=
      if maxVersion > 0 then baseName ++ "_v" ++ toString (maxVersion + 1)
      else baseName
    let filename := targetName ++ ".txt"
    let dir' := writeFile dir filename content
    let index' := setSavedOutputBaseNameForCommand index currentCommand baseName
    .ok (dir', index', filename)

/-- `deleteSavedOutput` (`internal/app/model.go`): remove
`saved_cmd/<filename>.txt`; if the file's group has no remaining version,
purge the index entries for that base. -/
def deleteSavedOutput (dir : Dir) (index : Index) (filename : String) :
    Except String (Dir × Index) :=
  let filepath := filename ++ ".txt"
  if ¬ dir.any (fun f => f.name = filepath) then .error "remove: no such file"
  else
    let dir' := dir.filter (fun f => ¬ (f.name = filepath))
    let base := saveBaseName (trimSpace (trimSuffix filename ".txt"))
    let index' :=
      if base ≠ "" then
        if ¬ savedOutputGroupExists dir' base then
          removeSavedOutputsIndexForBase index base
        else index
      else index
    .ok (dir', index')

/-- The rename pair computed for one directory entry by
`renameSavedOutputGroup`: a `.txt` file whose derived base is `oldBase` is
renamed to `newBase` with its `_vN` suffix (the literal digit string)
preserved. -/
def renamePairFor (oldBase newBase : String) (f : SavedFile) :
    Option (String × String) :=
  if ¬ hasSuffix f.name ".txt" then none
  else
    let name := trimSuffix f.name ".txt"
    let (base, suffix) :=
      match goVersionSplit name with
      | some (b, ds) => (b, "_v" ++ ds)
      | none => (name, "")
    if ¬ (base = oldBase) then none
    else some (name ++ ".txt", newBase ++ suffix ++ ".txt")

/-- Apply one `os.Rename(old, new)` to the directory. -/
def applyRename (dir : Dir) (rn : String × String) : Dir :=
  dir.map (fun f => if f.name = rn.1 then ⟨rn.2, f.content⟩ else f)

/-- `renameSavedOutputGroup` (`internal/app/model.go`): rename every file of
the group `oldBase` to `newBase` (suffixes preserved), failing before any
rename if nothing matches or if any target filename already exists; on
success the index entries valued `oldBase` are repointed. -/
def renameSavedOutputGroup (dir : Dir) (index : Index) (oldBase newBase : String) :
    Except String (Dir × Index) :=
  let oldBase := trimSpace (trimSuffix oldBase ".txt")
  let newBase := trimSpace (trimSuffix newBase ".txt")
  if oldBase = "" ∨ newBase = "" then .error "invalid name"
  else if oldBase = newBase then .ok (dir, index)
  else
    let renames := dir.filterMap (renamePairFor oldBase newBase)
    if renames = [] then .error "saved output not found"
    else if renames.any (fun rn => dir.any (fun f => f.name = rn.2)) then
      .error "saved output already exists"
    else
      let dir' := renames.foldl applyRename dir
      let index' := updateSavedOutputsIndexOnRename index oldBase newBase
      .ok (dir', index')

/-! ## UI model (`internal/ui/lists.go`, bubbles `list.Model`)

Only the observable parts of the list widget are modelled: the items
(title/description pairs), the widget title and the cursor index.
Geometry (width/height) and rendering are outside the modelled scope. -/

/-- `ui.SimpleItem`. -/
structure SimpleItem where
  title : String
  description : String
  deriving DecidableEq, Repr

/-- The bubbles list widget: items, title and cursor index. -/
structure UIList where
  items : List SimpleItem
  title : String
  index : Nat
  deriving DecidableEq, Repr

/-- `ui.NewList`: a fresh list starts with the cursor on the first item. -/
def newList (items : List SimpleItem) (title : String) : UIList :=
  ⟨items, title, 0⟩

/-- `list.SelectedItem()`: the item under the cursor, or nil when out of
range. -/
def UIList.selectedItem (l : UIList) : Option SimpleItem :=
  l.items[l.index]?

/-- `list.SetItems`: replaces the items, keeping the cursor. -/
def UIList.setItems (l : UIList) (items : List SimpleItem) : UIList :=
  { l with items := items }

/-- `favourites.Favourite`. -/
structure Favourite where
  name : String
  command : String
  deriving DecidableEq, Repr

/-! ## The wizard model (`internal/app/model.go`)

Fields of the Go `Model` struct that the verified claims touch. The store
collaborators except favourites, the viewport, the text input and the
terminal dimensions are outside the modelled scope. -/

structure Model where
  favStore : Option (List Favourite)
  currentScreen : Screen
  previousScreen : Screen
  selectedResource : ResourceType
  selectedAction : Action
  selectedResourceName : String
  selectedFlags : List String
  customNamespace : String
  needsNamespaceInput : Bool
  currentCommand : String
  renamingSavedOutput : String
  renamingSavedOutputIsGroup : Bool
  selectedSavedOutput : String
  selectedSavedOutputBase : String
  selectedSavedOutputVersionIdx : Int
  savedOutputsByBase : List (String × List String)
  defaultNamespace : String
  err : Option String
  list : UIList
  deriving DecidableEq, Repr

/-- Go map read `m.savedOutputsByBase[base]` (missing key yields the empty
slice). -/
def lookupBase (byBase : List (String × List String)) (base : String) :
    List String :=
  match byBase.find? (fun e => e.1 = base) with
  | some e => e.2
  | none => []

/-- Insertion sort on strings (Go `sort.Strings`; the orders agree on the
ASCII names this program generates). -/
def insertSorted (x : String) : List String → List String
  | [] => [x]
  | y :: ys => if x ≤ y then x :: y :: ys else y :: insertSorted x ys

/-- `sort.Strings`. -/
def sortStrings (l : List String) : List String :=
  l.foldr insertSorted []

/-! ## Navigation handlers (`internal/app/model_navigation.go`,
`internal/app/model.go`, `internal/app/model_contexts_namespaces.go`,
`internal/app/model_favourites_hotkeys.go`) -/

/-- `navigateToMainMenu` (`internal/app/model_navigation.go`): rebuild the
main-menu list, reset every wizard selection to its zero value, and clear
the transient error. -/
def navigateToMainMenu (m : Model) : Model :=
  let items : List SimpleItem := [
    ⟨"Run Command", "Execute kubectl commands"⟩,
    ⟨"Custom Command", "Build an advanced kubectl command"⟩,
    ⟨"Cluster Info", "View cluster information and metrics"⟩,
    ⟨"Favourites", "View and run saved commands"⟩,
    ⟨"Command History", "View and re-run previous commands"⟩,
    ⟨"Saved Outputs", "View previously saved outputs"⟩,
    ⟨"Hotkeys", "Manage hotkey bindings"⟩,
    ⟨"Contexts & Namespaces", "Manage kube contexts and default namespace"⟩,
    ⟨"Check Cluster Connectivity", "Verify connection to Kubernetes cluster"⟩,
    ⟨"Exit", "Quit the application"⟩]
  { m with
    list := newList items "Kubernetes Wizard"
    selectedResource := ResourcePods
    selectedAction := ActionGet
    selectedResourceName := ""
    selectedFlags := []
    customNamespace := ""
    needsNamespaceInput := false
    currentCommand := ""
    previousScreen := m.currentScreen
    currentScreen := MainMenuScreen
    err := none }

/-- `navigateToResourceSelection` (`internal/app/model_navigation.go`):
reset the selections (defensive double-reset) and show the resource list. -/
def navigateToResourceSelection (m : Model) : Model :=
  let items : List SimpleItem := [
    ⟨"Pods", "Manage pods"⟩,
    ⟨"Deployments", "Manage deployments"⟩,
    ⟨"Services", "Inspect services"⟩,
    ⟨"Nodes", "Inspect cluster nodes"⟩,
    ⟨"ConfigMaps", "Inspect configuration data"⟩,
    ⟨"Secrets", "Inspect secrets (careful: may show sensitive data)"⟩,
    ⟨"Ingress", "Inspect ingress resources"⟩]
  { m with
    selectedResource := ResourcePods
    selectedAction := ActionGet
    selectedResourceName := ""
    selectedFlags := []
    customNamespace := ""
    needsNamespaceInput := false
    currentCommand := ""
    list := newList items "Select Resource Type"
    previousScreen := m.currentScreen
    currentScreen := ResourceSelectionScreen }

/-- `navigateToActionSelection` (`internal/app/model_navigation.go`). -/
def navigateToActionSelection (m : Model) : Model :=
  let items : List SimpleItem :=
    match m.selectedResource with
    | ResourcePods => [
        ⟨"Get", "List all pods"⟩,
        ⟨"Describe", "Describe a specific pod"⟩,
        ⟨"Logs", "View logs from a pod"⟩,
        ⟨"Exec", "Execute shell in a pod"⟩,
        ⟨"Port Forward", "Forward local port to pod"⟩,
        ⟨"Edit", "Edit pod YAML"⟩,
        ⟨"Delete", "Delete a pod"⟩]
    | ResourceDeployments => [
        ⟨"Get", "List all deployments"⟩,
        ⟨"Describe", "Describe a specific deployment"⟩,
        ⟨"Logs", "View logs for a deployment"⟩,
        ⟨"Exec", "Execute shell in a deployment pod"⟩,
        ⟨"Port Forward", "Forward local port to deployment"⟩,
        ⟨"Edit", "Edit deployment YAML"⟩,
        ⟨"Delete", "Delete a deployment"⟩]
    | ResourceServices => [
        ⟨"Get", "List all services"⟩,
        ⟨"Describe", "Describe a specific service"⟩,
        ⟨"Port Forward", "Forward local port to service"⟩,
        ⟨"Edit", "Edit service YAML"⟩,
        ⟨"Delete", "Delete a service"⟩]
    | ResourceNodes => [
        ⟨"Get", "List all nodes"⟩,
        ⟨"Describe", "Describe a specific node"⟩,
        ⟨"Edit", "Edit node YAML"⟩,
        ⟨"Delete", "Delete a node"⟩]
    | ResourceConfigMaps => [
        ⟨"Get", "List all configmaps"⟩,
        ⟨"Describe", "Describe a specific configmap"⟩,
        ⟨"Edit", "Edit configmap YAML"⟩,
        ⟨"Delete", "Delete a configmap"⟩]
    | ResourceSecrets => [
        ⟨"Get", "List all secrets"⟩,
        ⟨"Describe", "Describe a specific secret (may reveal sensitive data)"⟩,
        ⟨"Extract Field", "Pick a field to decode and view"⟩,
        ⟨"Edit", "Edit secret YAML"⟩,
        ⟨"Delete", "Delete a secret"⟩]
    | ResourceIngress => [
        ⟨"Get", "List all ingress resources"⟩,
        ⟨"Describe", "Describe a specific ingress"⟩,
        ⟨"Edit", "Edit ingress YAML"⟩,
        ⟨"Delete", "Delete an ingress"⟩]
  { m with
    list := newList items "Select Action"
    previousScreen := m.currentScreen
    currentScreen := ActionSelectionScreen }

/-- `navigateToCommandPreview` (`internal/app/model_navigation.go`). -/
def navigateToCommandPreview (m : Model) : Model :=
  let items : List SimpleItem := [
    ⟨"Execute", "Run the command"⟩,
    ⟨"Help", "Show --help output"⟩,
    ⟨"Save as Favourite", "Save for later use"⟩,
    ⟨"Back", "Return to previous screen"⟩]
  { m with
    list := newList items "Command Preview"
    previousScreen := m.currentScreen
    currentScreen := CommandPreviewScreen }

/-- `navigateToFlagsSelection` (`internal/app/model_navigation.go`): reset
the selected flags and namespace state, then show the per-action flag
checklist. -/
def navigateToFlagsSelection (m : Model) : Model :=
  let m := { m with
    selectedFlags := ([] : List String)
    customNamespace := ""
    needsNamespaceInput := false }
  let items : List SimpleItem :=
    match m.selectedAction with
    | ActionGet => [
        ⟨"Done (Continue)", "Proceed with selected flags"⟩,
        ⟨"---", ""⟩,
        ⟨"[ ] -o wide", "Show additional columns"⟩,
        ⟨"[ ] -o yaml", "Output in YAML format"⟩,
        ⟨"[ ] -o json", "Output in JSON format"⟩,
        ⟨"[ ] --show-labels", "Show labels"⟩,
        ⟨"[ ] -A", "All namespaces"⟩,
        ⟨"[ ] -n <namespace>", "Specify custom namespace"⟩]
    | ActionDescribe => [
        ⟨"Done (Continue)", "Proceed with selected flags"⟩,
        ⟨"---", ""⟩,
        ⟨"[ ] --show-events=true", "Show events"⟩,
        ⟨"[ ] -n <namespace>", "Specify custom namespace"⟩]
    | ActionLogs => [
        ⟨"Done (Continue)", "Proceed with selected flags"⟩,
        ⟨"---", ""⟩,
        ⟨"[ ] -f", "Follow log output"⟩,
        ⟨"[ ] --tail=100", "Show last 100 lines"⟩,
        ⟨"[ ] --tail=50", "Show last 50 lines"⟩,
        ⟨"[ ] --since=1h", "Show logs from last hour"⟩,
        ⟨"[ ] --since=5m", "Show logs from last 5 minutes"⟩,
        ⟨"[ ] --previous", "Show logs from previous container"⟩,
        ⟨"[ ] -n <namespace>", "Specify custom namespace"⟩]
    | _ => []
  { m with
    list := newList items "Select Flags (Space to toggle, Enter when done)"
    previousScreen := m.currentScreen
    currentScreen := FlagsSelectionScreen }

/-- `navigateToFavouritesList` (`internal/app/model_favourites_hotkeys.go`). -/
def navigateToFavouritesList (m : Model) : Model :=
  match m.favStore with
  | none =>
    navigateToMainMenu { m with err := some "favourites store not available" }
  | some favs =>
    let items := favs.map (fun fav => (⟨fav.name, fav.command⟩ : SimpleItem))
    let items :=
      if items.length = 0 then
        [⟨"No favourites saved",
          "Save a command from the preview screen or history to see it here"⟩]
      else items
    { m with
      list := newList items "Favourites (Enter=run, 'd'=delete, 'r'=rename, 'h'=bind hotkey)"
      previousScreen := m.currentScreen
      currentScreen := FavouritesListScreen }

/-- `navigateToSavedOutputsGroups` (`internal/app/model.go`). -/
def navigateToSavedOutputsGroups (m : Model) : Model :=
  let items : List SimpleItem :=
    if m.savedOutputsByBase.length = 0 then [⟨"No saved outputs", ""⟩]
    else
      (sortStrings (m.savedOutputsByBase.map (fun e => e.1))).map
        (fun base =>
          ⟨base, toString (lookupBase m.savedOutputsByBase base).length ++ " versions"⟩)
  { m with
    list := newList items "Saved Outputs (Enter=versions, 'd'=delete, 'r'=rename)"
    previousScreen := m.currentScreen
    currentScreen := SavedOutputsListScreen }

/-- The version index clamping performed when entering the versions screen
(`navigateToSavedOutputVersions`) and before indexing into the version list
(`handleSavedOutputVersionSelection`, the `d` key handler). -/
def clampVersionIdx (idx : Int) (n : Nat) : Int :=
  if idx < 0 then (if (0 : Int) ≥ (n : Int) then (n : Int) - 1 else 0)
  else if idx ≥ (n : Int) then (n : Int) - 1 else idx

/-- `navigateToSavedOutputVersions` (`internal/app/model.go`): select the
group, clamp the version cursor into range, and build the versions list. -/
def navigateToSavedOutputVersions (m : Model) (base : String) : Model :=
  let m := { m with selectedSavedOutputBase := base }
  let versions := lookupBase m.savedOutputsByBase base
  let m := { m with
    selectedSavedOutputVersionIdx :=
      if m.selectedSavedOutputVersionIdx < 0 then 0
      else m.selectedSavedOutputVersionIdx }
  let m :=
    if versions.length > 0 then
      { m with
        selectedSavedOutputVersionIdx :=
          if m.selectedSavedOutputVersionIdx ≥ (versions.length : Int) then
            (versions.length : Int) - 1
          else m.selectedSavedOutputVersionIdx }
    else { m with selectedSavedOutputVersionIdx := 0 }
  let items : List SimpleItem :=
    if versions.length = 0 then [⟨"No versions", ""⟩]
    else versions.map (fun v =>
      let n :=
        match goVersionSplit v with
        | some (_, ds) => atoiDigits ds
        | none => 1
      ⟨v, "v" ++ toString n⟩)
  { m with
    list := newList items ("Saved Outputs: " ++ base ++ " (Enter=view, 'd'=delete)")
    previousScreen := m.currentScreen
    currentScreen := SavedOutputVersionsScreen }

/-- `navigateToCommandOutput` (`internal/app/model.go`). -/
def navigateToCommandOutput (m : Model) : Model :=
  { m with currentScreen := CommandOutputScreen }

/-- `navigateToContextsAndNamespacesMenu`
(`internal/app/model_contexts_namespaces.go`). -/
def navigateToContextsAndNamespacesMenu (m : Model) : Model :=
  let items : List SimpleItem := [
    ⟨"Switch Context", "Switch the current kube context"⟩,
    ⟨"Set Default Namespace", "Choose a default namespace for commands"⟩,
    ⟨"Back to Main Menu", "Return to the main menu"⟩]
  { m with
    list := newList items "Contexts & Namespaces"
    previousScreen := m.currentScreen
    currentScreen := ContextsNamespacesMenuScreen }

/-- `navigateBack` (`internal/app/model_navigation.go`): the static
canonical-parent table keyed by the current screen. Screens whose back
transition only triggers an asynchronous reload (`HotkeyBindScreen`'s store
refresh, `ClusterInfoScreen`) are mapped to their synchronous destination. -/
def navigateBack (m : Model) : Model :=
  match m.currentScreen with
  | ResourceSelectionScreen => navigateToMainMenu m
  | ActionSelectionScreen => navigateToResourceSelection m
  | ResourceNameSelectionScreen => navigateToActionSelection m
  | FlagsSelectionScreen =>
    -- Always return to the action selection from flags to keep navigation consistent
    navigateToActionSelection m
  | CommandPreviewScreen => navigateToFlagsSelection m
  | CommandHelpScreen => navigateToCommandPreview m
  | ClusterInfoScreen => navigateToMainMenu m
  | ClusterConnectivityScreen => navigateToMainMenu m
  | CommandHistoryScreen => navigateToMainMenu m
  | HotkeysListScreen => navigateToMainMenu m
  | HotkeyBindScreen => navigateToFavouritesList m
  | FavouritesListScreen => navigateToMainMenu m
  | SaveFavouriteScreen => navigateToCommandPreview m
  | RenameFavouriteScreen => navigateToFavouritesList m
  | SecretFieldSelectionScreen => navigateToActionSelection m
  | NamespaceInputScreen => navigateToFlagsSelection m
  | SavedOutputsListScreen => navigateToMainMenu m
  | SavedOutputVersionsScreen => navigateToSavedOutputsGroups m
  | SavedOutputViewScreen =>
    if m.previousScreen = SavedOutputVersionsScreen ∧ ¬ (m.selectedSavedOutputBase = "") then
      navigateToSavedOutputVersions m m.selectedSavedOutputBase
    else navigateToSavedOutputsGroups m
  | RenameSavedOutputScreen =>
    if m.renamingSavedOutputIsGroup then
      navigateToSavedOutputVersions m m.renamingSavedOutput
    else navigateToSavedOutputsGroups m
  | SaveOutputNameScreen => navigateToCommandOutput m
  | ContextsNamespacesMenuScreen => navigateToMainMenu m
  | ContextsListScreen => navigateToContextsAndNamespacesMenu m
  | NamespacesListScreen => navigateToContextsAndNamespacesMenu m
  | PortInputScreen => navigateToActionSelection m
  | _ => navigateToMainMenu m

/-! ## Flag Toggle Engine (`internal/app/model_favourites_hotkeys.go`) -/

/-- The index search of the `for … break` loops in `toggleFlag` (`flagIndex`
stays `-1`, i.e. `none`, when no element matches). -/
def findIdxP (p : String → Bool) : List String → Option Nat
  | [] => none
  | x :: xs => if p x then some 0 else (findIdxP p xs).map (· + 1)

/-- The splice `append(flags[:i], flags[i+1:]...)` on the first element
satisfying `p` (the `for … break` removal loops of `toggleFlag`). -/
def removeFirstP (p : String → Bool) (flags : List String) : List String :=
  match findIdxP p flags with
  | some i => flags.take i ++ flags.drop (i + 1)
  | none => flags

/-- Go `len(f) >= 2 && f[:2] == "-n"` (byte slicing; the flags are ASCII). -/
def isNsFlag (f : String) : Bool :=
  f.data.length ≥ 2 && f.data.take 2 = ['-', 'n']

/-- Update the checklist entry under the cursor with a new title, keeping
its description (the `items[idx] = ui.NewSimpleItem(newTitle, desc)` +
`SetItems` step of `toggleFlag`). -/
def updateListItem (m : Model) (idx : Nat) (newTitle : String) : Model :=
  let items := m.list.items
  if idx < items.length then
    match items[idx]? with
    | some it =>
      { m with list := m.list.setItems (items.set idx ⟨newTitle, it.description⟩) }
    | none => m
  else m

/-- The flag string a checklist entry stands for: its title with the
four-character checkbox marker (`"[ ] "` / `"[x] "`) removed
(`title[4:]` in the source; meaningful when the title is longer than the
marker). -/
def entryFlag (t : SimpleItem) : String :=
  ⟨t.title.data.drop 4⟩

/-- `toggleFlag` (`internal/app/model_favourites_hotkeys.go`): toggle the
checklist entry under the cursor. The namespace entry flips
`needsNamespaceInput` (removing a previously appended `-n …` flag by prefix
match on deselect); a generic entry adds/removes its flag string. -/
def toggleFlag (m : Model) : Model :=
  match m.list.selectedItem with
  | none => m
  | some selected =>
    let title := selected.title
    if title = "Done (Continue)" ∨ title = "---" then m
    else
      let flag : String :=
        if title.data.length > 4 then entryFlag selected else ""
      if flag = "-n <namespace>" then
        let idx := m.list.index
        if m.needsNamespaceInput then
          let m := { m with
            needsNamespaceInput := false
            customNamespace := ""
            selectedFlags := removeFirstP isNsFlag m.selectedFlags }
          updateListItem m idx "[ ] -n <namespace>"
        else
          let m := { m with needsNamespaceInput := true }
          updateListItem m idx "[x] -n <namespace>"
      else
        let idx := m.list.index
        match findIdxP (fun f => f = flag) m.selectedFlags with
        | some i =>
          let m := { m with
            selectedFlags := m.selectedFlags.take i ++ m.selectedFlags.drop (i + 1) }
          updateListItem m idx ("[ ] " ++ flag)
        | none =>
          let m := { m with selectedFlags := m.selectedFlags ++ [flag] }
          updateListItem m idx ("[x] " ++ flag)

/-! ## Saved-output versions screen keys (`internal/app/model_update.go`,
`internal/app/model.go`) -/

/-- The `"left"` case of `handleKeyPress` on the saved-output versions
screen: move the version cursor left, wrapping from the first version to
the last. On any other screen the key falls through to the list/viewport
widget, which does not touch the version cursor. -/
def pressLeftOnVersions (m : Model) : Model :=
  if m.currentScreen = SavedOutputVersionsScreen then
    let versions := lookupBase m.savedOutputsByBase m.selectedSavedOutputBase
    if versions.length = 0 then m
    else if m.selectedSavedOutputVersionIdx ≤ 0 then
      { m with selectedSavedOutputVersionIdx := (versions.length : Int) - 1 }
    else
      { m with selectedSavedOutputVersionIdx := m.selectedSavedOutputVersionIdx - 1 }
  else m

/-- The `"right"` case of `handleKeyPress` on the saved-output versions
screen: move the version cursor right, wrapping from the last version to
the first. -/
def pressRightOnVersions (m : Model) : Model :=
  if m.currentScreen = SavedOutputVersionsScreen then
    let versions := lookupBase m.savedOutputsByBase m.selectedSavedOutputBase
    if versions.length = 0 then m
    else if m.selectedSavedOutputVersionIdx ≥ (versions.length : Int) - 1 then
      { m with selectedSavedOutputVersionIdx := 0 }
    else
      { m with selectedSavedOutputVersionIdx := m.selectedSavedOutputVersionIdx + 1 }
  else m

/-- The version filename accessed by `handleSavedOutputVersionSelection`
(Enter) and by the `d` (delete) handler on the versions screen: both clamp
the cursor with the same two `if`s and then index `versions[idx]`. -/
def selectedVersionTarget (m : Model) : Option String :=
  let versions := lookupBase m.savedOutputsByBase m.selectedSavedOutputBase
  if versions.length = 0 then none
  else
    let idx := clampVersionIdx m.selectedSavedOutputVersionIdx versions.length
    versions[idx.toNat]?

/-- A wizard model with every field at its zero value (the state right after
`NewModel`, restricted to the modelled fields), used to instantiate
universally quantified theorems at concrete states. -/
def baseModel : Model where
  favStore := none
  currentScreen := MainMenuScreen
  previousScreen := MainMenuScreen
  selectedResource := ResourcePods
  selectedAction := ActionGet
  selectedResourceName := ""
  selectedFlags := []
  customNamespace := ""
  needsNamespaceInput := false
  currentCommand := ""
  renamingSavedOutput := ""
  renamingSavedOutputIsGroup := false
  selectedSavedOutput := ""
  selectedSavedOutputBase := ""
  selectedSavedOutputVersionIdx := 0
  savedOutputsByBase := []
  defaultNamespace := ""
  err := none
  list := ⟨[], "", 0⟩

/-- A concrete flags-checklist state: the `Get` checklist with `-o wide` and
`--show-labels` both selected (in that order) and the cursor on the
`-o wide` entry. Reached by toggling `-o wide` and then `--show-labels` and
moving the cursor back up. -/
def flagsGetState : Model :=
  { baseModel with
    currentScreen := FlagsSelectionScreen
    selectedAction := ActionGet
    selectedFlags := ["-o wide", "--show-labels"]
    list := ⟨[
      ⟨"Done (Continue)", "Proceed with selected flags"⟩,
      ⟨"---", ""⟩,
      ⟨"[x] -o wide", "Show additional columns"⟩,
      ⟨"[ ] -o yaml", "Output in YAML format"⟩,
      ⟨"[ ] -o json", "Output in JSON format"⟩,
      ⟨"[x] --show-labels", "Show labels"⟩,
      ⟨"[ ] -A", "All namespaces"⟩,
      ⟨"[ ] -n <namespace>", "Specify custom namespace"⟩],
      "Select Flags (Space to toggle, Enter when done)", 2⟩ }

/-- A concrete flags-checklist state in the namespace sub-flow: `-o wide`
and `--show-labels` are selected, a namespace value `default` was entered
(appending `"-n default"` between them), and the cursor is on the checked
namespace entry. -/
def nsFlagsState : Model :=
  { baseModel with
    currentScreen := FlagsSelectionScreen
    selectedAction := ActionGet
    needsNamespaceInput := true
    customNamespace := "default"
    selectedFlags := ["-o wide", "-n default", "--show-labels"]
    list := ⟨[
      ⟨"Done (Continue)", "Proceed with selected flags"⟩,
      ⟨"---", ""⟩,
      ⟨"[x] -o wide", "Show additional columns"⟩,
      ⟨"[ ] -o yaml", "Output in YAML format"⟩,
      ⟨"[ ] -o json", "Output in JSON format"⟩,
      ⟨"[x] --show-labels", "Show labels"⟩,
      ⟨"[ ] -A", "All namespaces"⟩,
      ⟨"[x] -n <namespace>", "Specify custom namespace"⟩],
      "Select Flags (Space to toggle, Enter when done)", 7⟩ }

end KW

/-! # Theorems on the claims -/

open KW KW.Screen KW.ResourceType KW.Action

/-! ## Helper lemmas about the flag-toggle engine -/

theorem KW.findIdxP_eq_none {p : String → Bool} {l : List String}
    (h : ∀ x ∈ l, p x = false) : findIdxP p l = none := by
  induction l with
  | nil => rfl
  | cons a as ih =>
    simp only [KW.findIdxP, h a (by simp), Bool.false_eq_true, if_false,
      List.append_eq, ih (fun x hx => h x (by simp [hx])), Option.map_none']

theorem KW.findIdxP_first {p : String → Bool} {pre : List String} {x : String}
    (post : List String) (hpre : ∀ y ∈ pre, p y = false) (hx : p x = true) :
    findIdxP p (pre ++ x :: post) = some pre.length := by
  induction pre with
  | nil => simp [KW.findIdxP, hx]
  | cons a as ih =>
    simp only [List.cons_append, KW.findIdxP, hpre a (by simp), Bool.false_eq_true,
      if_false, List.append_eq, ih (fun y hy => hpre y (by simp [hy])),
      Option.map_some', List.length_cons]

theorem KW.splice_append (pre : List String) (x : String) (post : List String) :
    (pre ++ x :: post).take pre.length ++ (pre ++ x :: post).drop (pre.length + 1) =
      pre ++ post := by
  induction pre with
  | nil => simp
  | cons a as ih => simp [ih]

theorem KW.removeFirstP_eq {p : String → Bool} {pre : List String} {x : String}
    (post : List String) (hpre : ∀ y ∈ pre, p y = false) (hx : p x = true) :
    removeFirstP p (pre ++ x :: post) = pre ++ post := by
  unfold KW.removeFirstP
  rw [KW.findIdxP_first post hpre hx]
  exact KW.splice_append pre x post

theorem KW.updateListItem_selectedFlags (m : KW.Model) (idx : Nat) (s : String) :
    (updateListItem m idx s).selectedFlags = m.selectedFlags := by
  simp only [KW.updateListItem]
  split
  · split <;> rfl
  · rfl

theorem KW.updateListItem_needsNamespaceInput (m : KW.Model) (idx : Nat) (s : String) :
    (updateListItem m idx s).needsNamespaceInput = m.needsNamespaceInput := by
  simp only [KW.updateListItem]
  split
  · split <;> rfl
  · rfl

theorem KW.updateListItem_customNamespace (m : KW.Model) (idx : Nat) (s : String) :
    (updateListItem m idx s).customNamespace = m.customNamespace := by
  simp only [KW.updateListItem]
  split
  · split <;> rfl
  · rfl

theorem KW.updateListItem_index (m : KW.Model) (idx : Nat) (s : String) :
    (updateListItem m idx s).list.index = m.list.index := by
  simp only [KW.updateListItem]
  split
  · split <;> rfl
  · rfl

theorem KW.updateListItem_items {m : KW.Model} {idx : Nat} {it : KW.SimpleItem}
    (s : String) (h : m.list.items[idx]? = some it) :
    (updateListItem m idx s).list.items =
      m.list.items.set idx ⟨s, it.description⟩ := by
  have hlt : idx < m.list.items.length := (List.getElem?_eq_some.mp h).1
  simp only [KW.updateListItem]
  rw [if_pos hlt, h]
  rfl

/-- After `updateListItem` at the cursor, the cursor still addresses an item,
now retitled. -/
theorem KW.updateListItem_selected {m : KW.Model} {it : KW.SimpleItem}
    (s : String) (h : m.list.items[m.list.index]? = some it) :
    (updateListItem m m.list.index s).list.items[
        (updateListItem m m.list.index s).list.index]? =
      some ⟨s, it.description⟩ := by
  have hlt : m.list.index < m.list.items.length := (List.getElem?_eq_some.mp h).1
  rw [KW.updateListItem_index, KW.updateListItem_items s h]
  simp [List.getElem?_set_self', hlt]

theorem KW.string_data_append (a b : String) : (a ++ b).data = a.data ++ b.data :=
  rfl

/-- A checkbox-rendered title is neither the Done entry nor the separator. -/
theorem KW.checkbox_title_ne (mk f : String) (hmk : mk = "[ ] " ∨ mk = "[x] ") :
    ¬ (mk ++ f) = "Done (Continue)" ∧ ¬ (mk ++ f) = "---" := by
  rcases hmk with h | h <;> subst h <;>
    exact ⟨fun hEq => by
        have hd := congrArg String.data hEq
        rw [KW.string_data_append] at hd
        simp at hd,
      fun hEq => by
        have hd := congrArg String.data hEq
        rw [KW.string_data_append] at hd
        simp at hd⟩

/-- Stripping a four-character checkbox marker recovers the flag. -/
theorem KW.entryFlag_checkbox (mk : String) (hmk : mk.data.length = 4)
    (f d : String) : entryFlag ⟨mk ++ f, d⟩ = f := by
  unfold KW.entryFlag
  show (⟨((mk ++ f : String)).data.drop 4⟩ : String) = f
  rw [KW.string_data_append, ← hmk, List.drop_left]

theorem KW.erase_first {f : String} (pre post : List String) (hpre : ¬ f ∈ pre) :
    (pre ++ f :: post).erase f = pre ++ post := by
  induction pre with
  | nil => simp
  | cons a as ih =>
    have ha : ¬ a = f := fun h => hpre (by simp [h])
    simp only [List.cons_append, List.erase_cons, beq_iff_eq, if_neg ha]
    rw [ih (fun h => hpre (by simp [h]))]

theorem KW.filter_ne_erase (l : List String) (f : String) :
    (l.erase f).filter (fun x => ¬ (x = f)) = l.filter (fun x => ¬ (x = f)) := by
  induction l with
  | nil => rfl
  | cons b bs ih =>
    by_cases hb : b = f
    · subst hb
      simp [List.erase_cons]
    · simp only [decide_not] at ih
      simp [List.erase_cons, hb, ih]

/-- One generic toggle when the entry's flag is not currently selected:
the flag is appended and the entry is re-rendered checked. -/
theorem KW.toggleFlag_spec_notMem {m : KW.Model} {t : KW.SimpleItem}
    (hsel : m.list.items[m.list.index]? = some t)
    (hdone : ¬ t.title = "Done (Continue)") (hsep : ¬ t.title = "---")
    (hlen : 4 < t.title.data.length)
    (hns : ¬ entryFlag t = "-n <namespace>")
    (hmem : ¬ entryFlag t ∈ m.selectedFlags) :
    toggleFlag m = updateListItem
      { m with selectedFlags := m.selectedFlags ++ [entryFlag t] }
      m.list.index ("[x] " ++ entryFlag t) := by
  unfold KW.toggleFlag KW.UIList.selectedItem
  rw [hsel]
  simp only []
  rw [if_neg (not_or.mpr ⟨hdone, hsep⟩), if_pos hlen, if_neg hns,
    KW.findIdxP_eq_none (p := fun f => f = entryFlag t)
      (fun x hx => by
        simp only [decide_eq_false_iff_not]
        intro hxf
        exact hmem (hxf ▸ hx))]

/-- One generic toggle when the entry's flag occurs in the selected list,
first at position `pre.length`: that occurrence is spliced out and the entry
is re-rendered unchecked. -/
theorem KW.toggleFlag_spec_mem {m : KW.Model} {t : KW.SimpleItem}
    {pre post : List String}
    (hsel : m.list.items[m.list.index]? = some t)
    (hdone : ¬ t.title = "Done (Continue)") (hsep : ¬ t.title = "---")
    (hlen : 4 < t.title.data.length)
    (hns : ¬ entryFlag t = "-n <namespace>")
    (hflags : m.selectedFlags = pre ++ entryFlag t :: post)
    (hpre : ¬ entryFlag t ∈ pre) :
    toggleFlag m = updateListItem
      { m with selectedFlags := pre ++ post }
      m.list.index ("[ ] " ++ entryFlag t) := by
  unfold KW.toggleFlag KW.UIList.selectedItem
  rw [hsel]
  simp only []
  rw [if_neg (not_or.mpr ⟨hdone, hsep⟩), if_pos hlen, if_neg hns, hflags,
    KW.findIdxP_first (p := fun f => f = entryFlag t) post
      (fun y hy => by
        simp only [decide_eq_false_iff_not]
        intro hyf
        exact hpre (hyf ▸ hy))
      (by simp)]
  simp only [KW.splice_append]

/-- Characterization of a generic double toggle: when the entry's flag was
not selected, the selected-flag list is exactly restored; when it was
selected (at most once), the flag is removed and then re-appended, i.e. it
moves to the end of the list. -/
theorem KW.toggleFlag_twice_key {m : KW.Model} {t : KW.SimpleItem}
    (hsel : m.list.items[m.list.index]? = some t)
    (hdone : ¬ t.title = "Done (Continue)") (hsep : ¬ t.title = "---")
    (hlen : 4 < t.title.data.length)
    (hns : ¬ entryFlag t = "-n <namespace>")
    (hcount : m.selectedFlags.count (entryFlag t) ≤ 1) :
    (toggleFlag (toggleFlag m)).selectedFlags =
      (if entryFlag t ∈ m.selectedFlags
       then m.selectedFlags.erase (entryFlag t) ++ [entryFlag t]
       else m.selectedFlags) := by
  have hflen : 0 < (entryFlag t).data.length := by
    unfold KW.entryFlag
    simp only [List.length_drop]
    omega
  have hmk1 : ("[ ] " : String).data.length = 4 := by decide
  have hmk2 : ("[x] " : String).data.length = 4 := by decide
  by_cases hmem : entryFlag t ∈ m.selectedFlags
  · rw [if_pos hmem]
    obtain ⟨pre, post, hflags⟩ := List.append_of_mem hmem
    have hcnt : m.selectedFlags.count (entryFlag t) =
        pre.count (entryFlag t) + (post.count (entryFlag t) + 1) := by
      rw [hflags]
      simp [List.count_append, List.count_cons]
    have hpre : ¬ entryFlag t ∈ pre := by
      have h0 : pre.count (entryFlag t) = 0 := by omega
      exact List.count_eq_zero.mp h0
    have hpost : ¬ entryFlag t ∈ post := by
      have h0 : post.count (entryFlag t) = 0 := by omega
      exact List.count_eq_zero.mp h0
    have h1 := KW.toggleFlag_spec_mem hsel hdone hsep hlen hns hflags hpre
    have hsel1 := KW.updateListItem_selected
      (m := { m with selectedFlags := pre ++ post })
      ("[ ] " ++ entryFlag t) hsel
    have hentry1 : entryFlag ⟨"[ ] " ++ entryFlag t, t.description⟩ = entryFlag t :=
      KW.entryFlag_checkbox "[ ] " hmk1 (entryFlag t) t.description
    have hne1 := KW.checkbox_title_ne "[ ] " (entryFlag t) (Or.inl rfl)
    have hlen1 : 4 < ("[ ] " ++ entryFlag t).data.length := by
      rw [KW.string_data_append, List.length_append, hmk1]
      omega
    have hmem1 : ¬ entryFlag ⟨"[ ] " ++ entryFlag t, t.description⟩ ∈
        (updateListItem { m with selectedFlags := pre ++ post }
          m.list.index ("[ ] " ++ entryFlag t)).selectedFlags := by
      rw [hentry1, KW.updateListItem_selectedFlags]
      simp only [List.mem_append]
      exact fun hc => hc.elim hpre hpost
    have h2 := KW.toggleFlag_spec_notMem hsel1 hne1.1 hne1.2 hlen1
      (by rw [hentry1]; exact hns) hmem1
    rw [h1, h2, KW.updateListItem_selectedFlags]
    simp only [KW.updateListItem_selectedFlags, hentry1]
    rw [hflags, KW.erase_first pre post hpre]
  · rw [if_neg hmem]
    have h1 := KW.toggleFlag_spec_notMem hsel hdone hsep hlen hns hmem
    have hsel1 := KW.updateListItem_selected
      (m := { m with selectedFlags := m.selectedFlags ++ [entryFlag t] })
      ("[x] " ++ entryFlag t) hsel
    have hentry1 : entryFlag ⟨"[x] " ++ entryFlag t, t.description⟩ = entryFlag t :=
      KW.entryFlag_checkbox "[x] " hmk2 (entryFlag t) t.description
    have hne1 := KW.checkbox_title_ne "[x] " (entryFlag t) (Or.inr rfl)
    have hlen1 : 4 < ("[x] " ++ entryFlag t).data.length := by
      rw [KW.string_data_append, List.length_append, hmk2]
      omega
    have hflags1 : (updateListItem { m with selectedFlags := m.selectedFlags ++ [entryFlag t] }
          m.list.index ("[x] " ++ entryFlag t)).selectedFlags =
        m.selectedFlags ++
          entryFlag ⟨"[x] " ++ entryFlag t, t.description⟩ :: [] := by
      rw [KW.updateListItem_selectedFlags, hentry1]
    have h2 := KW.toggleFlag_spec_mem hsel1 hne1.1 hne1.2 hlen1
      (by rw [hentry1]; exact hns) hflags1 (by rw [hentry1]; exact hmem)
    rw [h1, h2, KW.updateListItem_selectedFlags]
    simp

/-! ## C2: double-toggling a generic flag entry -/

/-- C2 as stated is false: in the `Get` flags checklist with
`["-o wide", "--show-labels"]` selected and the cursor on the (checked,
generic) `-o wide` entry, toggling that entry twice yields
`["--show-labels", "-o wide"]` — the same flags, but not the prior ordering:
the toggled flag is re-appended at the end instead of returning to its old
position. -/
theorem C2_counterexample_toggle_twice :
    flagsGetState.list.selectedItem =
      some ⟨"[x] -o wide", "Show additional columns"⟩ ∧
    flagsGetState.selectedFlags = ["-o wide", "--show-labels"] ∧
    (toggleFlag (toggleFlag flagsGetState)).selectedFlags =
      ["--show-labels", "-o wide"] ∧
    ¬ (toggleFlag (toggleFlag flagsGetState)).selectedFlags =
      flagsGetState.selectedFlags := by
  have h3 : (toggleFlag (toggleFlag flagsGetState)).selectedFlags =
      ["--show-labels", "-o wide"] := by decide
  exact ⟨rfl, rfl, h3, by rw [h3]; decide⟩

/-- C2 (amended): for every flag-checklist state and every generic flag
entry (not the namespace flag, not Done, not the separator; the entry's
flag selected at most once, as the toggle handlers guarantee), toggling the
entry twice restores the selected-flag *set*: if the flag was unselected the
list is restored exactly; in general the result is a permutation of the
prior list that leaves the relative order of all other flags unchanged,
with a previously selected toggled flag re-appended at the end. -/
theorem C2_double_toggle_restores_set (m : KW.Model) (t : KW.SimpleItem)
    (hsel : m.list.items[m.list.index]? = some t)
    (hdone : ¬ t.title = "Done (Continue)") (hsep : ¬ t.title = "---")
    (hlen : 4 < t.title.data.length)
    (hns : ¬ entryFlag t = "-n <namespace>")
    (hcount : m.selectedFlags.count (entryFlag t) ≤ 1) :
    ((toggleFlag (toggleFlag m)).selectedFlags =
      (if entryFlag t ∈ m.selectedFlags
       then m.selectedFlags.erase (entryFlag t) ++ [entryFlag t]
       else m.selectedFlags)) ∧
    List.Perm (toggleFlag (toggleFlag m)).selectedFlags m.selectedFlags ∧
    ((toggleFlag (toggleFlag m)).selectedFlags.filter
        (fun x => ¬ (x = entryFlag t)) =
      m.selectedFlags.filter (fun x => ¬ (x = entryFlag t))) ∧
    (¬ entryFlag t ∈ m.selectedFlags →
      (toggleFlag (toggleFlag m)).selectedFlags = m.selectedFlags) := by
  have key := KW.toggleFlag_twice_key hsel hdone hsep hlen hns hcount
  refine ⟨key, ?_, ?_, ?_⟩
  · rw [key]
    by_cases hmem : entryFlag t ∈ m.selectedFlags
    · rw [if_pos hmem]
      exact List.perm_append_comm.trans (List.perm_cons_erase hmem).symm
    · rw [if_neg hmem]
  · rw [key]
    by_cases hmem : entryFlag t ∈ m.selectedFlags
    · rw [if_pos hmem, List.filter_append]
      have hfe := KW.filter_ne_erase m.selectedFlags (entryFlag t)
      simp only [decide_not] at hfe
      simp [hfe]
    · rw [if_neg hmem]
  · intro hmem
    rw [key, if_neg hmem]

/-- Witness for the amended C2 at a concrete state: double-toggling the
checked `-o wide` entry moves that flag to the end of the list. -/
theorem C2_double_toggle_restores_set_witness :
    (flagsGetState.list.items[flagsGetState.list.index]? =
      some ⟨"[x] -o wide", "Show additional columns"⟩) ∧
    ((toggleFlag (toggleFlag flagsGetState)).selectedFlags =
      (if KW.entryFlag ⟨"[x] -o wide", "Show additional columns"⟩ ∈
          flagsGetState.selectedFlags
       then flagsGetState.selectedFlags.erase
          (KW.entryFlag ⟨"[x] -o wide", "Show additional columns"⟩) ++
          [KW.entryFlag ⟨"[x] -o wide", "Show additional columns"⟩]
       else flagsGetState.selectedFlags)) :=
  ⟨rfl, (C2_double_toggle_restores_set flagsGetState
      ⟨"[x] -o wide", "Show additional columns"⟩ rfl (by decide) (by decide)
      (by decide) (by decide) (by decide)).1⟩

/-! ## Helper lemmas about the versioned output store -/

theorem KW.goVersionSplitAux_cons (c : Char) (rest : List Char) :
    goVersionSplitAux (c :: rest) =
      (match goVersionSplitAux rest with
       | some (b, ds) => some (c :: b, ds)
       | none =>
         match c, rest with
         | '_', 'v' :: ds =>
           if ds ≠ [] && ds.all Char.isDigit then some ([], ds) else none
         | _, _ => none) := rfl

theorem KW.goVersionSplitAux_decomp {s b ds : List Char}
    (h : goVersionSplitAux s = some (b, ds)) : s = b ++ '_' :: 'v' :: ds := by
  induction s generalizing b ds with
  | nil => exact absurd h (by simp [KW.goVersionSplitAux])
  | cons c rest ih =>
    rw [KW.goVersionSplitAux_cons] at h
    have h' := h
    split at h'
    · rename_i b' ds' heq
      simp only [Option.some.injEq, Prod.mk.injEq] at h'
      obtain ⟨hb, hds⟩ := h'
      subst hb
      subst hds
      rw [ih heq]
      rfl
    · rename_i heq
      split at h'
      · split at h'
        · simp only [Option.some.injEq, Prod.mk.injEq] at h'
          obtain ⟨hb, hds⟩ := h'
          subst hb
          subst hds
          rfl
        · exact absurd h' (by simp)
      · exact absurd h' (by simp)

theorem KW.goVersionSplit_decomp {s b ds : String}
    (h : goVersionSplit s = some (b, ds)) : s = b ++ "_v" ++ ds := by
  have h' : (match goVersionSplitAux s.data with
      | some (b, ds) => some ((⟨b⟩ : String), (⟨ds⟩ : String))
      | none => none) = some (b, ds) := h
  split at h'
  · rename_i bl dl heq
    simp only [Option.some.injEq, Prod.mk.injEq] at h'
    obtain ⟨hb, hds⟩ := h'
    have hdecomp := KW.goVersionSplitAux_decomp heq
    apply congrArg String.mk at hdecomp
    rw [show (⟨s.data⟩ : String) = s from rfl] at hdecomp
    rw [hdecomp, ← hb, ← hds]
    show (⟨bl ++ '_' :: 'v' :: dl⟩ : String) = ⟨(bl ++ ['_', 'v']) ++ dl⟩
    rw [List.append_assoc]
    rfl
  · exact absurd h' (by simp)

theorem KW.trimSuffix_append_of_hasSuffix {s suf : String}
    (h : hasSuffix s suf = true) : trimSuffix s suf ++ suf = s := by
  unfold KW.hasSuffix at h
  unfold KW.trimSuffix
  rw [if_pos h]
  obtain ⟨p, hp⟩ := (List.isSuffixOf_iff_suffix.mp h)
  show (⟨(s.data.take (s.data.length - suf.data.length)) ++ suf.data⟩ : String) = s
  rw [← hp, List.length_append, Nat.add_sub_cancel, List.take_left]
  exact congrArg String.mk hp

theorem KW.renamePairFor_eq_some {o n : String} {f : KW.SavedFile}
    {rn : String × String} (h : renamePairFor o n f = some rn) :
    hasSuffix f.name ".txt" = true ∧ rn.1 = f.name ∧
    ∃ suffix, trimSuffix f.name ".txt" = o ++ suffix ∧
      rn.2 = n ++ suffix ++ ".txt" := by
  by_cases hsuf : hasSuffix f.name ".txt"
  · refine ⟨hsuf, ?_⟩
    rcases hsplit : goVersionSplit (trimSuffix f.name ".txt") with _ | ⟨b, ds⟩ <;>
      simp only [KW.renamePairFor, hsuf, hsplit, not_true, if_false,
        Bool.true_eq_false, ite_false] at h
    · by_cases hbase : trimSuffix f.name ".txt" = o
      · rw [if_neg (by simp [hbase])] at h
        obtain hrn := Option.some.injEq .. ▸ h
        constructor
        · rw [← hrn]
          exact KW.trimSuffix_append_of_hasSuffix hsuf
        · exact ⟨"", by rw [hbase]; simp, by rw [← hrn]⟩
      · rw [if_pos (by simp [hbase])] at h
        exact absurd h (by simp)
    · by_cases hbase : b = o
      · rw [if_neg (by simp [hbase])] at h
        obtain hrn := Option.some.injEq .. ▸ h
        constructor
        · rw [← hrn]
          exact KW.trimSuffix_append_of_hasSuffix hsuf
        · refine ⟨"_v" ++ ds, ?_, by rw [← hrn]⟩
          rw [KW.goVersionSplit_decomp hsplit, hbase]
          rw [String.append_assoc]
      · rw [if_pos (by simp [hbase])] at h
        exact absurd h (by simp)
  · simp only [KW.renamePairFor, hsuf] at h
    exact absurd h (by simp)

/-- A name-projecting `filterMap` over the directory is a sublist of the
name listing. -/
theorem KW.filterMap_name_sublist (h : KW.SavedFile → Option String)
    (hh : ∀ f y, h f = some y → y = f.name) (dir : KW.Dir) :
    (dir.filterMap h).Sublist (dir.map (fun f => f.name)) := by
  induction dir with
  | nil => simp
  | cons f fs ih =>
    rw [List.filterMap_cons, List.map_cons]
    rcases hf : h f with _ | y
    · exact ih.cons _
    · rw [hh f y hf]
      exact ih.cons₂ _

/-- Folding a batch of `os.Rename` steps whose sources all come from the
directory, whose targets are fresh, and whose sources and targets are
duplicate-free, is the simultaneous renaming of every matched file. -/
theorem KW.foldl_applyRename_eq_map (renames : List (String × String)) :
    ∀ dir : KW.Dir,
    (∀ rn ∈ renames, ∀ f ∈ dir, ¬ f.name = rn.2) →
    (∀ rn ∈ renames, ∃ f ∈ dir, rn.1 = f.name) →
    (renames.map (fun rn => rn.1)).Nodup →
    (renames.map (fun rn => rn.2)).Nodup →
    renames.foldl applyRename dir =
      dir.map (fun f =>
        match renames.find? (fun rn => rn.1 = f.name) with
        | some rn => ⟨rn.2, f.content⟩
        | none => f) := by
  induction renames with
  | nil =>
    intro dir _ _ _ _
    simp [List.find?]
  | cons rn rs ih =>
    intro dir hfresh hsrc hsnodup htnodup
    rw [List.map_cons] at hsnodup htnodup
    obtain ⟨hs1, hs2⟩ := List.nodup_cons.mp hsnodup
    obtain ⟨ht1, ht2⟩ := List.nodup_cons.mp htnodup
    have hfresh' : ∀ rn' ∈ rs, ∀ f' ∈ applyRename dir rn, ¬ f'.name = rn'.2 := by
      intro rn' hrn' f' hf'
      obtain ⟨f, hf, hff⟩ := List.mem_map.mp hf'
      by_cases hname : f.name = rn.1
      · rw [if_pos hname] at hff
        rw [← hff]
        intro hcon
        have hcon' : rn.2 = rn'.2 := hcon
        exact ht1 (by rw [hcon']; exact List.mem_map.mpr ⟨rn', hrn', rfl⟩)
      · rw [if_neg hname] at hff
        rw [← hff]
        exact hfresh rn' (by simp [hrn']) f hf
    have hsrc' : ∀ rn' ∈ rs, ∃ f' ∈ applyRename dir rn, rn'.1 = f'.name := by
      intro rn' hrn'
      obtain ⟨f, hf, hfn⟩ := hsrc rn' (by simp [hrn'])
      have hname : ¬ f.name = rn.1 := by
        intro hcon
        exact hs1 (by
          rw [← hfn] at hcon
          exact hcon ▸ List.mem_map.mpr ⟨rn', hrn', rfl⟩)
      refine ⟨f, ?_, hfn⟩
      have : (fun g => if g.name = rn.1 then (⟨rn.2, g.content⟩ : KW.SavedFile) else g) f = f := by
        simp only [if_neg hname]
      exact this ▸ List.mem_map_of_mem _ hf
    rw [List.foldl_cons, ih (applyRename dir rn) hfresh' hsrc' hs2 ht2]
    unfold KW.applyRename
    rw [List.map_map]
    apply List.map_congr_left
    intro f hf
    by_cases hname : f.name = rn.1
    · simp only [Function.comp, if_pos hname]
      have hnone : rs.find? (fun rn' => rn'.1 =
          (⟨rn.2, f.content⟩ : KW.SavedFile).name) = none := by
        apply List.find?_eq_none.mpr
        intro rn' hrn'
        simp only [decide_eq_true_eq]
        intro hcon
        obtain ⟨g, hg, hgname⟩ := hsrc rn' (by simp [hrn'])
        exact (hfresh rn (by simp) g hg) (by rw [← hgname, hcon])
      have hhead : (rn :: rs).find? (fun rn' => rn'.1 = f.name) = some rn :=
        List.find?_cons_of_pos _ (by simp [hname])
      rw [hnone, hhead]
    · simp only [Function.comp, if_neg hname]
      have hstep : (rn :: rs).find? (fun rn' => rn'.1 = f.name) =
          rs.find? (fun rn' => rn'.1 = f.name) :=
        List.find?_cons_of_neg _ (by simp [Ne.symm hname])
      rw [hstep]

/-- On a duplicate-free directory with no target collision, the sequential
renames of `renameSavedOutputGroup` act as one simultaneous map. -/
theorem KW.rename_success_map {dir : KW.Dir} {o n : String}
    (hnodup : (dir.map (fun f => f.name)).Nodup)
    (hcol : (dir.filterMap (renamePairFor o n)).any
      (fun rn => dir.any (fun f => f.name = rn.2)) = false) :
    (dir.filterMap (renamePairFor o n)).foldl applyRename dir =
      dir.map (fun f =>
        match renamePairFor o n f with
        | some rn => ⟨rn.2, f.content⟩
        | none => f) := by
  set renames := dir.filterMap (renamePairFor o n) with hrenames
  have hfresh : ∀ rn ∈ renames, ∀ f ∈ dir, ¬ f.name = rn.2 := by
    intro rn hrn f hf hcon
    have htrue : renames.any (fun rn => dir.any (fun f => f.name = rn.2)) = true :=
      List.any_eq_true.mpr ⟨rn, hrn, List.any_eq_true.mpr ⟨f, hf, by simp [hcon]⟩⟩
    rw [hcol] at htrue
    exact Bool.false_ne_true htrue
  have hsrc : ∀ rn ∈ renames, ∃ f ∈ dir, rn.1 = f.name := by
    intro rn hrn
    obtain ⟨f, hf, hsome⟩ := List.mem_filterMap.mp hrn
    exact ⟨f, hf, (KW.renamePairFor_eq_some hsome).2.1⟩
  have hsnodup : (renames.map (fun rn => rn.1)).Nodup := by
    rw [hrenames, List.map_filterMap]
    refine hnodup.sublist (KW.filterMap_name_sublist _ ?_ dir)
    intro f y hy
    obtain ⟨rn, hrn, hyy⟩ := Option.map_eq_some'.mp hy
    rw [← hyy]
    exact (KW.renamePairFor_eq_some hrn).2.1
  have htnodup : (renames.map (fun rn => rn.2)).Nodup := by
    refine List.Nodup.map_on ?_ (List.Nodup.of_map _ hsnodup)
    intro rn hrn rn' hrn' heq
    obtain ⟨f, hf, hsomef⟩ := List.mem_filterMap.mp hrn
    obtain ⟨g, hg, hsomeg⟩ := List.mem_filterMap.mp hrn'
    obtain ⟨hsuff, hfstf, sf, hsf, htf⟩ := KW.renamePairFor_eq_some hsomef
    obtain ⟨hsufg, hfstg, sg, hsg, htg⟩ := KW.renamePairFor_eq_some hsomeg
    have h2 : n ++ sf ++ ".txt" = n ++ sg ++ ".txt" := by
      rw [← htf, ← htg]
      exact heq
    have hd : (n.data ++ sf.data) ++ ('.' :: 't' :: 'x' :: 't' :: []) =
        (n.data ++ sg.data) ++ ('.' :: 't' :: 'x' :: 't' :: []) :=
      congrArg String.data h2
    have hsfg : sf = sg :=
      congrArg String.mk (List.append_cancel_left (List.append_cancel_right hd))
    have hnames : f.name = g.name := by
      calc f.name = trimSuffix f.name ".txt" ++ ".txt" :=
            (KW.trimSuffix_append_of_hasSuffix hsuff).symm
        _ = trimSuffix g.name ".txt" ++ ".txt" := by rw [hsf, hsg, hsfg]
        _ = g.name := KW.trimSuffix_append_of_hasSuffix hsufg
    exact Prod.ext (by rw [hfstf, hfstg, hnames]) heq
  rw [KW.foldl_applyRename_eq_map renames dir hfresh hsrc hsnodup htnodup]
  apply List.map_congr_left
  intro f hf
  rcases hpair : renamePairFor o n f with _ | rn
  · have hnone : renames.find? (fun rn => rn.1 = f.name) = none := by
      apply List.find?_eq_none.mpr
      intro rn' hrn'
      simp only [decide_eq_true_eq]
      intro hcon
      obtain ⟨g, hg, hsomeg⟩ := List.mem_filterMap.mp hrn'
      have hgname := (KW.renamePairFor_eq_some hsomeg).2.1
      have hgf : g = f :=
        List.inj_on_of_nodup_map hnodup hg hf (by rw [← hgname, hcon])
      rw [hgf, hpair] at hsomeg
      exact absurd hsomeg (by simp)
    rw [hnone]
  · have hrnmem : rn ∈ renames := List.mem_filterMap.mpr ⟨f, hf, hpair⟩
    have hfst := (KW.renamePairFor_eq_some hpair).2.1
    rcases hfind : renames.find? (fun rn' => rn'.1 = f.name) with _ | rn''
    · exact absurd (List.find?_eq_none.mp hfind rn hrnmem) (by simp [hfst])
    · have hmem2 := List.mem_of_find?_eq_some hfind
      have hp2 := List.find?_some hfind
      simp only [decide_eq_true_eq] at hp2
      have hrneq : rn'' = rn :=
        List.inj_on_of_nodup_map hsnodup hmem2 hrnmem (by rw [hp2, hfst])
      rw [hfind, hrneq]

/-! ## C5: renaming a saved-output group -/

/-- C5 is false as stated when the new name itself carries a version
suffix: renaming group `a` (one file `a.txt`, one index entry valued `a`)
to `b_v3` renames the file to `b_v3.txt` but repoints the index entry to
the derived base `"b"`, not to the requested name `"b_v3"`. -/
theorem C5_counterexample_rename_to_versioned_name :
    renameSavedOutputGroup [⟨"a.txt", "x"⟩] [("cmd", "a")] "a" "b_v3" =
      .ok ([⟨"b_v3.txt", "x"⟩], [("cmd", "b")]) ∧
    ¬ ("b" : String) = "b_v3" := by
  constructor
  · rfl
  · decide

/-- C5 (amended): for sanitized base names and a duplicate-free directory:
renaming a group to its own current name is a no-op success; if any target
filename under `newBase` already exists the whole operation fails (returning
an error before any file or index entry is touched); otherwise every file
whose derived base equals `oldBase` is renamed with its version suffix
preserved (`renamePairFor`), and every index entry valued `oldBase` is
repointed to `newBase` *stripped of any trailing version suffix*
(`saveBaseName newBase`, which equals `newBase` whenever `newBase` carries
no version suffix). -/
theorem C5_rename_group (dir : KW.Dir) (index : KW.Index)
    (oldBase newBase : String)
    (hold : trimSpace (trimSuffix oldBase ".txt") = oldBase)
    (hnew : trimSpace (trimSuffix newBase ".txt") = newBase)
    (holdne : ¬ oldBase = "") (hnewne : ¬ newBase = "")
    (hnodup : (dir.map (fun f => f.name)).Nodup) :
    (oldBase = newBase →
      renameSavedOutputGroup dir index oldBase newBase = .ok (dir, index)) ∧
    (¬ oldBase = newBase →
      ¬ dir.filterMap (renamePairFor oldBase newBase) = [] →
      (dir.filterMap (renamePairFor oldBase newBase)).any
        (fun rn => dir.any (fun f => f.name = rn.2)) = true →
      renameSavedOutputGroup dir index oldBase newBase =
        .error "saved output already exists") ∧
    (¬ oldBase = newBase →
      ¬ dir.filterMap (renamePairFor oldBase newBase) = [] →
      (dir.filterMap (renamePairFor oldBase newBase)).any
        (fun rn => dir.any (fun f => f.name = rn.2)) = false →
      renameSavedOutputGroup dir index oldBase newBase = .ok
        (dir.map (fun f =>
          match renamePairFor oldBase newBase f with
          | some rn => ⟨rn.2, f.content⟩
          | none => f),
         index.map (fun e =>
          if e.2 = oldBase then (e.1, saveBaseName newBase) else e))) := by
  have hidx : updateSavedOutputsIndexOnRename index oldBase newBase =
      index.map (fun e =>
        if e.2 = oldBase then (e.1, saveBaseName newBase) else e) := by
    unfold KW.updateSavedOutputsIndexOnRename
    rw [hold, hnew, if_neg (by simp [holdne, hnewne])]
    rfl
  refine ⟨?_, ?_, ?_⟩
  · intro heq
    unfold KW.renameSavedOutputGroup
    rw [hold, hnew, if_neg (by simp [holdne, hnewne]), if_pos heq]
  · intro hne hrenames hcol
    unfold KW.renameSavedOutputGroup
    rw [hold, hnew, if_neg (by simp [holdne, hnewne]), if_neg hne,
      if_neg hrenames, if_pos hcol]
  · intro hne hrenames hcol
    unfold KW.renameSavedOutputGroup
    rw [hold, hnew, if_neg (by simp [holdne, hnewne]), if_neg hne,
      if_neg hrenames, if_neg (by simp [hcol]),
      KW.rename_success_map hnodup hcol, hidx]

/-- Witness for C5's success case at the spec's concrete scenario:
renaming the two-version group `pods-output` to `my-pods` renames both
files, preserving the `_v2` suffix, and repoints the index entry. -/
theorem C5_rename_group_witness :
    renameSavedOutputGroup
      [⟨"pods-output.txt", "C1"⟩, ⟨"pods-output_v2.txt", "C2"⟩]
      [("kubectl get pods", "pods-output")] "pods-output" "my-pods" =
      .ok ([⟨"my-pods.txt", "C1"⟩, ⟨"my-pods_v2.txt", "C2"⟩],
        [("kubectl get pods", "my-pods")]) := by
  have h := (C5_rename_group
      [⟨"pods-output.txt", "C1"⟩, ⟨"pods-output_v2.txt", "C2"⟩]
      [("kubectl get pods", "pods-output")] "pods-output" "my-pods"
      (by decide) (by decide) (by decide) (by decide) (by decide)).2.2
      (by decide) (by decide) (by decide)
  rw [h]
  rfl

/-! ## C6: deleting the last version purges the index -/

/-- C6: deleting the last remaining saved-output version under a base also
removes every command→base index entry whose value is that base — after
the deletion no index entry points at the dead base — while entries for
other bases survive. `base` is the file's derived base; the hypotheses say
the file exists, its base is a non-empty sanitized name, and no file of
that base's group remains after the removal. -/
theorem C6_delete_last_purges_index (dir : KW.Dir) (index : KW.Index)
    (filename base : String)
    (hbasedef : base = saveBaseName (trimSpace (trimSuffix filename ".txt")))
    (hmem : dir.any (fun f => f.name = filename ++ ".txt") = true)
    (hbase : ¬ base = "")
    (hsan : trimSpace (trimSuffix base ".txt") = base)
    (hlast : savedOutputGroupExists
      (dir.filter (fun f => ¬ (f.name = filename ++ ".txt"))) base = false) :
    deleteSavedOutput dir index filename =
      .ok (dir.filter (fun f => ¬ (f.name = filename ++ ".txt")),
           index.filter (fun e => ¬ (e.2 = base))) ∧
    (∀ e ∈ index.filter (fun e => ¬ (e.2 = base)), ¬ e.2 = base) ∧
    (∀ e ∈ index, ¬ e.2 = base →
      e ∈ index.filter (fun e => ¬ (e.2 = base))) := by
  refine ⟨?_, ?_, ?_⟩
  · unfold KW.deleteSavedOutput
    rw [if_neg (by simp [hmem]), ← hbasedef]
    simp only []
    rw [if_pos hbase, if_pos (by simp only [decide_not] at hlast; simp [hlast])]
    unfold KW.removeSavedOutputsIndexForBase
    rw [hsan, if_neg hbase]
  · intro e he
    exact of_decide_eq_true (List.mem_filter.mp he).2
  · intro e he hne
    exact List.mem_filter.mpr ⟨he, decide_eq_true hne⟩

/-- Witness for C6: deleting the only version of `pods-output` empties the
directory and purges the index entry pointing at it. -/
theorem C6_delete_last_purges_index_witness :
    deleteSavedOutput [⟨"pods-output.txt", "C1"⟩]
      [("kubectl get pods", "pods-output")] "pods-output" = .ok ([], []) := by
  have h := (C6_delete_last_purges_index [⟨"pods-output.txt", "C1"⟩]
      [("kubectl get pods", "pods-output")] "pods-output" "pods-output"
      (by decide) (by decide) (by decide) (by decide) (by decide)).1
  rw [h]
  rfl

/-! ## C7: resolving the archival base for a command -/

/-- C7: resolving the archival base for a command: with no index entry the
resolver reports no archive and leaves the index unchanged; with an entry
whose base still has at least one file it returns that base, index
unchanged; with an entry whose base has no remaining file it purges exactly
the stale entries for that base (self-healing) and reports no archive,
leaving every other entry in place. -/
theorem C7_resolve_for_command (dir : KW.Dir) (index : KW.Index)
    (command : String) (hcmd : ¬ trimSpace command = "") :
    (indexLookup index command = none →
      getSavedOutputBaseNameForCommand dir index command = (("", false), index)) ∧
    (∀ b, indexLookup index command = some b →
      trimSpace (trimSuffix b ".txt") = b → ¬ b = "" →
      savedOutputGroupExists dir b = true →
      getSavedOutputBaseNameForCommand dir index command = ((b, true), index)) ∧
    (∀ b, indexLookup index command = some b →
      trimSpace (trimSuffix b ".txt") = b → ¬ b = "" →
      savedOutputGroupExists dir b = false →
      getSavedOutputBaseNameForCommand dir index command =
        (("", false), index.filter (fun e => ¬ (e.2 = b))) ∧
      (∀ e ∈ index.filter (fun e => ¬ (e.2 = b)), ¬ e.2 = b) ∧
      (∀ e ∈ index, ¬ e.2 = b → e ∈ index.filter (fun e => ¬ (e.2 = b)))) := by
  refine ⟨?_, ?_, ?_⟩
  · intro hnone
    unfold KW.getSavedOutputBaseNameForCommand
    rw [if_neg hcmd, hnone]
  · intro b hsome hsan hbne hex
    unfold KW.getSavedOutputBaseNameForCommand
    rw [if_neg hcmd, hsome]
    simp only [hsan]
    rw [if_neg hbne, if_pos hex]

  · intro b hsome hsan hbne hnoex
    refine ⟨?_, ?_, ?_⟩
    · unfold KW.getSavedOutputBaseNameForCommand
      rw [if_neg hcmd, hsome]
      simp only [hsan]
      rw [if_neg hbne, if_neg (by simp [hnoex])]
      unfold KW.removeSavedOutputsIndexForBase
      rw [hsan, if_neg hbne]

    · intro e he
      exact of_decide_eq_true (List.mem_filter.mp he).2
    · intro e he hne
      exact List.mem_filter.mpr ⟨he, decide_eq_true hne⟩

/-- Witness for C7's self-healing case: a stale entry mapping the command
to the fileless base `pods-output` is purged and no archive is reported. -/
theorem C7_resolve_for_command_witness :
    getSavedOutputBaseNameForCommand [] [("kubectl get pods", "pods-output")]
      "kubectl get pods" = (("", false), []) := by
  have h := ((C7_resolve_for_command [] [("kubectl get pods", "pods-output")]
      "kubectl get pods" (by decide)).2.2 "pods-output"
      (by decide) (by decide) (by decide) (by decide)).1
  rw [h]
  rfl

/-! ## C9: deselecting the namespace flag is a frame-preserving removal -/

/-- Toggling the checked namespace entry while namespace input is pending:
the boolean and the pending value are cleared and the first `-n`-prefixed
flag is spliced out of the selected flags. -/
theorem KW.toggleFlag_ns_deselect {m : KW.Model} {d : String}
    (hsel : m.list.items[m.list.index]? = some ⟨"[x] -n <namespace>", d⟩)
    (hneed : m.needsNamespaceInput = true) :
    toggleFlag m = updateListItem
      { m with
        needsNamespaceInput := false
        customNamespace := ""
        selectedFlags := removeFirstP isNsFlag m.selectedFlags }
      m.list.index "[ ] -n <namespace>" := by
  unfold KW.toggleFlag KW.UIList.selectedItem
  rw [hsel]
  simp only []
  rw [if_neg (by decide)]
  have hcondNs : (if ('[' :: 'x' :: ']' :: ' ' :: '-' :: 'n' :: ' ' :: '<' ::
      'n' :: 'a' :: 'm' :: 'e' :: 's' :: 'p' :: 'a' :: 'c' :: 'e' :: '>' :: []).length > 4
      then KW.entryFlag ⟨"[x] -n <namespace>", d⟩ else "") = "-n <namespace>" := rfl
  rw [if_pos hcondNs, if_pos hneed]

/-- C9: deselecting the namespace flag on the flags checklist removes only
the namespace flag string (the first selected flag with prefix `-n`) from
the accumulator's selected flags and clears the pending custom-namespace
value and the namespace-input-required boolean, leaving every other
selected flag present and in its original relative order. -/
theorem C9_namespace_deselect_frame (m : KW.Model) (d nsf : String)
    (pre post : List String)
    (hsel : m.list.items[m.list.index]? = some ⟨"[x] -n <namespace>", d⟩)
    (hneed : m.needsNamespaceInput = true)
    (hflags : m.selectedFlags = pre ++ nsf :: post)
    (hnsf : isNsFlag nsf = true)
    (hpre : ∀ y ∈ pre, isNsFlag y = false) :
    (toggleFlag m).selectedFlags = pre ++ post ∧
    (toggleFlag m).needsNamespaceInput = false ∧
    (toggleFlag m).customNamespace = "" := by
  rw [KW.toggleFlag_ns_deselect hsel hneed]
  refine ⟨?_, ?_, ?_⟩
  · rw [KW.updateListItem_selectedFlags]
    show removeFirstP isNsFlag m.selectedFlags = pre ++ post
    rw [hflags]
    exact KW.removeFirstP_eq post hpre hnsf
  · rw [KW.updateListItem_needsNamespaceInput]
  · rw [KW.updateListItem_customNamespace]

/-- Witness for C9 at the concrete namespace state: deselecting removes
only `"-n default"`, keeping `-o wide` and `--show-labels` in order. -/
theorem C9_namespace_deselect_frame_witness :
    ((toggleFlag nsFlagsState).selectedFlags = ["-o wide"] ++ ["--show-labels"]) ∧
    (toggleFlag nsFlagsState).needsNamespaceInput = false ∧
    (toggleFlag nsFlagsState).customNamespace = "" :=
  C9_namespace_deselect_frame nsFlagsState "Specify custom namespace"
    "-n default" ["-o wide"] ["--show-labels"] rfl rfl rfl (by decide)
    (by decide)

/-! ## C3: returning to the main menu clears the Selection Accumulator -/

/-- C3: for every wizard state, the transition that returns to the main menu
leaves the Selection Accumulator fully cleared — selected resource kind,
selected action, target name, selected-flag list, pending custom namespace,
the namespace-input-required boolean and the assembled command string are
all at their empty/zero values — and the transient error/status message is
cleared. -/
theorem C3_mainMenu_clears_accumulator (m : KW.Model) :
    (navigateToMainMenu m).selectedResource = ResourcePods ∧
    (navigateToMainMenu m).selectedAction = ActionGet ∧
    (navigateToMainMenu m).selectedResourceName = "" ∧
    (navigateToMainMenu m).selectedFlags = [] ∧
    (navigateToMainMenu m).customNamespace = "" ∧
    (navigateToMainMenu m).needsNamespaceInput = false ∧
    (navigateToMainMenu m).currentCommand = "" ∧
    (navigateToMainMenu m).err = none ∧
    (navigateToMainMenu m).currentScreen = MainMenuScreen :=
  ⟨rfl, rfl, rfl, rfl, rfl, rfl, rfl, rfl, rfl⟩

/-! ## C4: back from the flags screen always lands on action selection -/

/-- C4: for every wizard state whose current screen is the flags-selection
screen — whatever resource kind, action or navigation path led there — the
back (esc/cancel) transition lands on the action-selection screen. -/
theorem C4_flags_back_to_action (m : KW.Model)
    (h : m.currentScreen = FlagsSelectionScreen) :
    (navigateBack m).currentScreen = ActionSelectionScreen := by
  unfold KW.navigateBack
  rw [h]
  rfl

/-- Witness for C4 at a concrete state. -/
theorem C4_flags_back_to_action_witness :
    ({ KW.baseModel with currentScreen := FlagsSelectionScreen } : KW.Model).currentScreen
        = FlagsSelectionScreen ∧
    (navigateBack { KW.baseModel with currentScreen := FlagsSelectionScreen }).currentScreen
        = ActionSelectionScreen :=
  ⟨rfl, C4_flags_back_to_action _ rfl⟩

/-! ## C8: buildCommand on the two specified inputs -/

/-- C8: `buildCommand` applied to (Pods, Get, empty name, empty flag list)
returns exactly `"kubectl get pods"`, and `buildCommand` applied to
(Pods, Describe, "my-pod", ["-n default"]) returns exactly
`"kubectl describe pod my-pod -n default"`. -/
theorem C8_buildCommand_examples :
    KW.buildCommand KW.ResourceType.ResourcePods KW.Action.ActionGet "" [] =
      "kubectl get pods" ∧
    KW.buildCommand KW.ResourceType.ResourcePods KW.Action.ActionDescribe "my-pod"
      ["-n default"] = "kubectl describe pod my-pod -n default" := by
  constructor <;> rfl

/-! ## C1: save creates `base.txt` then `base_v2.txt` and indexes the base -/

/-- C1: saving output under the explicit name `"pods-output"` into an empty
store creates `pods-output.txt`; a second save under the same explicit name
creates `pods-output_v2.txt`; after both saves the command→base index maps
the currently-active command string to the base `"pods-output"`, not to a
specific version. In general the written target name is the bare base when
`maxVersion` is 0, else `base_v(maxVersion+1)`. The two saved contents are
the spec's placeholders `"C1"` and `"C2"`; contents never influence naming
or indexing. -/
theorem C1_save_versioning :
    (saveOutput [] [] "pods-output" "C1" "kubectl get pods" =
      .ok ([⟨"pods-output.txt", "C1"⟩], [("kubectl get pods", "pods-output")],
        "pods-output.txt")) ∧
    (saveOutput [⟨"pods-output.txt", "C1"⟩] [("kubectl get pods", "pods-output")]
        "pods-output" "C2" "kubectl get pods" =
      .ok ([⟨"pods-output.txt", "C1"⟩, ⟨"pods-output_v2.txt", "C2"⟩],
        [("kubectl get pods", "pods-output")], "pods-output_v2.txt")) ∧
    (indexLookup [("kubectl get pods", "pods-output")] "kubectl get pods" =
      some "pods-output") ∧
    (∀ (dir : KW.Dir) (index : KW.Index) (name content cmd : String),
      trimSpace (trimSuffix name ".txt") ≠ "" →
      ∃ d i, saveOutput dir index name content cmd = .ok (d, i,
        (if saveMaxVersion dir (saveBaseName (trimSpace (trimSuffix name ".txt"))) = 0
         then saveBaseName (trimSpace (trimSuffix name ".txt"))
         else saveBaseName (trimSpace (trimSuffix name ".txt")) ++ "_v" ++
           toString (saveMaxVersion dir (saveBaseName (trimSpace (trimSuffix name ".txt"))) + 1))
          ++ ".txt")) := by
  refine ⟨rfl, rfl, rfl, ?_⟩
  intro dir index name content cmd h
  rcases Nat.eq_zero_or_pos
      (saveMaxVersion dir (saveBaseName (trimSpace (trimSuffix name ".txt")))) with h0 | hpos
  · exact ⟨_, _, by simp [KW.saveOutput, h, h0]; exact ⟨rfl, rfl⟩⟩
  · exact ⟨_, _, by
      simp [KW.saveOutput, h, hpos, Nat.pos_iff_ne_zero.mp hpos]; exact ⟨rfl, rfl⟩⟩

/-- Witness for C1's target-name rule at a concrete input. -/
theorem C1_save_versioning_witness :
    KW.trimSpace (KW.trimSuffix "pods-output" ".txt") ≠ "" ∧
    ∃ d i, KW.saveOutput [] [] "pods-output" "C1" "kubectl get pods" = .ok (d, i,
      (if KW.saveMaxVersion [] (KW.saveBaseName (KW.trimSpace (KW.trimSuffix "pods-output" ".txt"))) = 0
       then KW.saveBaseName (KW.trimSpace (KW.trimSuffix "pods-output" ".txt"))
       else KW.saveBaseName (KW.trimSpace (KW.trimSuffix "pods-output" ".txt")) ++ "_v" ++
         toString (KW.saveMaxVersion [] (KW.saveBaseName (KW.trimSpace (KW.trimSuffix "pods-output" ".txt"))) + 1))
        ++ ".txt") :=
  ⟨by decide, C1_save_versioning.2.2.2 [] [] "pods-output" "C1"
    "kubectl get pods" (by decide)⟩

/-! ## C10: the saved-output version cursor stays in bounds -/

/-- C10: on the saved-output versions screen, whenever the version list of
the selected base is non-empty, the selected version index stays within
`0 … len-1`: entering the screen clamps any out-of-range index into bounds,
left navigation from index 0 wraps to the last version, right navigation
from the last version wraps to index 0 (both staying in bounds), and the
clamped access used by version viewing/deletion always hits an element. -/
theorem C10_version_index_invariant (m : KW.Model) (base : String) :
    (lookupBase m.savedOutputsByBase base ≠ [] →
      0 ≤ (navigateToSavedOutputVersions m base).selectedSavedOutputVersionIdx ∧
      (navigateToSavedOutputVersions m base).selectedSavedOutputVersionIdx <
        (lookupBase m.savedOutputsByBase base).length) ∧
    (m.currentScreen = SavedOutputVersionsScreen →
      lookupBase m.savedOutputsByBase m.selectedSavedOutputBase ≠ [] →
      0 ≤ m.selectedSavedOutputVersionIdx →
      m.selectedSavedOutputVersionIdx <
        (lookupBase m.savedOutputsByBase m.selectedSavedOutputBase).length →
      ((pressLeftOnVersions m).selectedSavedOutputVersionIdx =
        (if m.selectedSavedOutputVersionIdx = 0 then
          ((lookupBase m.savedOutputsByBase m.selectedSavedOutputBase).length : Int) - 1
         else m.selectedSavedOutputVersionIdx - 1) ∧
       0 ≤ (pressLeftOnVersions m).selectedSavedOutputVersionIdx ∧
       (pressLeftOnVersions m).selectedSavedOutputVersionIdx <
         (lookupBase m.savedOutputsByBase m.selectedSavedOutputBase).length)) ∧
    (m.currentScreen = SavedOutputVersionsScreen →
      lookupBase m.savedOutputsByBase m.selectedSavedOutputBase ≠ [] →
      0 ≤ m.selectedSavedOutputVersionIdx →
      m.selectedSavedOutputVersionIdx <
        (lookupBase m.savedOutputsByBase m.selectedSavedOutputBase).length →
      ((pressRightOnVersions m).selectedSavedOutputVersionIdx =
        (if m.selectedSavedOutputVersionIdx =
            ((lookupBase m.savedOutputsByBase m.selectedSavedOutputBase).length : Int) - 1
         then 0 else m.selectedSavedOutputVersionIdx + 1) ∧
       0 ≤ (pressRightOnVersions m).selectedSavedOutputVersionIdx ∧
       (pressRightOnVersions m).selectedSavedOutputVersionIdx <
         (lookupBase m.savedOutputsByBase m.selectedSavedOutputBase).length)) ∧
    (lookupBase m.savedOutputsByBase m.selectedSavedOutputBase ≠ [] →
      ∃ f, selectedVersionTarget m = some f) := by
  refine ⟨?_, ?_, ?_, ?_⟩
  · intro hne
    have hpos : 0 < (lookupBase m.savedOutputsByBase base).length :=
      List.length_pos.mpr hne
    simp only [KW.navigateToSavedOutputVersions]
    split <;> split <;> (simp_all; try omega)
  · intro hscreen hne h0 hlt
    have hpos : 0 < (lookupBase m.savedOutputsByBase m.selectedSavedOutputBase).length :=
      List.length_pos.mpr hne
    simp only [KW.pressLeftOnVersions, if_pos hscreen]
    rw [if_neg (by omega)]
    by_cases h0le : m.selectedSavedOutputVersionIdx ≤ 0
    · have heq0 : m.selectedSavedOutputVersionIdx = 0 := le_antisymm h0le h0
      rw [if_pos h0le]
      refine ⟨by rw [if_pos heq0], by dsimp only; omega, by dsimp only; omega⟩
    · rw [if_neg h0le]
      refine ⟨by rw [if_neg (by omega)], by dsimp only; omega, by dsimp only; omega⟩
  · intro hscreen hne h0 hlt
    have hpos : 0 < (lookupBase m.savedOutputsByBase m.selectedSavedOutputBase).length :=
      List.length_pos.mpr hne
    simp only [KW.pressRightOnVersions, if_pos hscreen]
    rw [if_neg (by omega)]
    by_cases hge : m.selectedSavedOutputVersionIdx ≥
        ((lookupBase m.savedOutputsByBase m.selectedSavedOutputBase).length : Int) - 1
    · have heq : m.selectedSavedOutputVersionIdx =
          ((lookupBase m.savedOutputsByBase m.selectedSavedOutputBase).length : Int) - 1 := by
        omega
      rw [if_pos hge]
      refine ⟨by rw [if_pos heq], by dsimp only; omega, by dsimp only; omega⟩
    · rw [if_neg hge]
      refine ⟨by rw [if_neg (by omega)], by dsimp only; omega, by dsimp only; omega⟩
  · intro hne
    have hpos : 0 < (lookupBase m.savedOutputsByBase m.selectedSavedOutputBase).length :=
      List.length_pos.mpr hne
    simp only [KW.selectedVersionTarget]
    rw [if_neg (by omega)]
    have hidx : (clampVersionIdx m.selectedSavedOutputVersionIdx
        (lookupBase m.savedOutputsByBase m.selectedSavedOutputBase).length).toNat <
        (lookupBase m.savedOutputsByBase m.selectedSavedOutputBase).length := by
      unfold KW.clampVersionIdx
      split
      · split <;> omega
      · split <;> omega
    exact ⟨_, List.getElem?_eq_getElem hidx⟩

/-- Witness for C10 at a concrete two-version state: left from index 0
wraps to the last version. -/
theorem C10_version_index_invariant_witness :
    (({ KW.baseModel with
        currentScreen := SavedOutputVersionsScreen,
        selectedSavedOutputBase := "b",
        savedOutputsByBase := [("b", ["b", "b_v2"])],
        selectedSavedOutputVersionIdx := 0 } : KW.Model).currentScreen =
      SavedOutputVersionsScreen) ∧
    ((KW.pressLeftOnVersions { KW.baseModel with
        currentScreen := SavedOutputVersionsScreen,
        selectedSavedOutputBase := "b",
        savedOutputsByBase := [("b", ["b", "b_v2"])],
        selectedSavedOutputVersionIdx := 0 }).selectedSavedOutputVersionIdx =
      (if (0 : Int) = 0 then ((2 : Nat) : Int) - 1 else 0 - 1)) := by
  refine ⟨rfl, ?_⟩
  have h := (C10_version_index_invariant { KW.baseModel with
        currentScreen := SavedOutputVersionsScreen,
        selectedSavedOutputBase := "b",
        savedOutputsByBase := [("b", ["b", "b_v2"])],
        selectedSavedOutputVersionIdx := 0 } "b").2.1 rfl (by decide) (by decide)
      (by decide)
  exact h.1
